import Mathlib

/-!
Verification of `scripts/generate_graphs.py` (benchmark graph generation).

The Python script is shallowly embedded.  Python floats are modelled as exact
rationals, the dynamically typed Python values flowing through the script as
`PyVal`, and code that can raise an exception as `Except PyErr`.  The
definitions below follow the source functions `parse_json_benchmark`
(lines 61-93), `parse_text_benchmark` (lines 96-121) and
`generate_comparisons` (lines 148-211) of `scripts/generate_graphs.py`.
The matplotlib rendering functions and the I/O driver are not modelled: no
claim below is about them.
-/

/-- Python runtime errors that the embedded code can raise. -/
inductive PyErr where
  | attributeError
  | typeError
  | valueError
  | zeroDivisionError
deriving DecidableEq

/-- A scalar Python value as it appears in the script's data flow.  JSON
decoding can also produce nested lists and objects; the script only ever
stores such values in the numeric record fields, where (like every value
other than `str`) they make `x.split` raise `AttributeError` and numeric
comparison raise `TypeError`, so the scalar constructors suffice for the
behaviours under verification.  Python floats are modelled as exact
rationals. -/
inductive PyVal where
  | str (s : String)
  | int (n : Int)
  | float (q : ℚ)
  | bool (b : Bool)
  | pyNone
deriving DecidableEq

/-- The result of `json.loads` on a line of text: either a JSON object (a
Python `dict` with string keys) or some other JSON value (array or scalar),
on which `.get` raises `AttributeError`. -/
inductive PyData where
  | dict (kvs : List (String × PyVal))
  | nondict
deriving DecidableEq

/-- Lookup in a Python dict built by `json.loads`: when a key is duplicated
in the JSON text, the last occurrence wins. -/
def lookupLast (kvs : List (String × PyVal)) (k : String) : Option PyVal :=
  (kvs.reverse.find? (fun p => p.1 == k)).map (fun p => p.2)

/-- `data.get(k, dflt)` on a Python dict. -/
def dget (kvs : List (String × PyVal)) (k : String) (dflt : PyVal) : PyVal :=
  (lookupLast kvs k).getD dflt

/-- `s.replace(old, new, 1)` with `new = ''` at the character-list level:
remove the first occurrence of `pat`, leave the list unchanged when `pat`
does not occur. -/
def replaceFirstList (pat : List Char) : List Char → List Char
  | [] => []
  | c :: cs =>
    if pat.isPrefixOf (c :: cs) then (c :: cs).drop pat.length
    else c :: replaceFirstList pat cs

/-- Python `s.replace(old, '', 1)` (used with `old = 'Benchmark'`). -/
def pyReplaceFirst (s old : String) : String :=
  String.mk (replaceFirstList old.toList s.toList)

/-- Split a character list at every occurrence of `sep` (Python
`str.split(sep)` for a one-character separator: an empty string gives
`['']`, adjacent separators give empty pieces). -/
def splitChar (sep : Char) : List Char → List (List Char)
  | [] => [[]]
  | c :: cs =>
    if c = sep then [] :: splitChar sep cs
    else
      match splitChar sep cs with
      | s :: ss => (c :: s) :: ss
      | [] => [[c]]

/-- Python `s.split(sep)` for a one-character separator. -/
def pySplit (s : String) (sep : Char) : List String :=
  (splitChar sep s.toList).map String.mk

/-- `BenchmarkResult` (source lines 25-36).  The string-valued fields are
genuine strings whenever construction succeeds; the four numeric fields hold
whatever value the input supplied, so they stay dynamically typed. -/
structure BenchmarkResult where
  name : String
  operation : String
  hive_size : String
  impl : String
  iterations : PyVal
  ns_per_op : PyVal
  bytes_per_op : PyVal
  allocs_per_op : PyVal
deriving DecidableEq

/-- `parse_json_benchmark` (source lines 61-93).  The argument is the
outcome of `json.loads(line)`: `.error ()` when the line is not valid JSON
(the raised `JSONDecodeError` is caught by the `except` clause, giving
`None`).  A decoded non-dict makes `data.get('Name', '')` raise
`AttributeError`, and a non-string `Name` makes `name.split('/')` raise
`AttributeError`; neither error is in the caught `(JSONDecodeError,
KeyError)` tuple, so both propagate. -/
def parse_json_benchmark (decoded : Except Unit PyData) :
    Except PyErr (Option BenchmarkResult) :=
  match decoded with
  | .error _ => .ok Option.none
  | .ok PyData.nondict => .error PyErr.attributeError
  | .ok (PyData.dict kvs) =>
    match dget kvs "Name" (PyVal.str "") with
    | PyVal.str name =>
      match pySplit name '/' with
      | p0 :: p1 :: rest =>
        let operation := pyReplaceFirst p0 "Benchmark"
        let impl := p1
        let hive_size := match rest with | h :: _ => h | [] => ""
        let variant := match rest with | _ :: v :: _ => v | _ => ""
        let display_name :=
          if variant ≠ "" then operation ++ "/" ++ variant else operation
        .ok (some
          { name := name
            operation := display_name
            hive_size := hive_size
            impl := impl
            iterations := dget kvs "N" (PyVal.int 0)
            ns_per_op := dget kvs "T" (PyVal.float 0)
            bytes_per_op := dget kvs "B" (PyVal.int 0)
            allocs_per_op := dget kvs "A" (PyVal.int 0) })
      | _ => .ok Option.none
    | _ => .error PyErr.attributeError

/-- Characters matched by the regex class `\w` (the inputs under
verification are ASCII, where `\w` is a letter, a digit or `_`). -/
def isWordChar (c : Char) : Bool :=
  c.isAlpha || c.isDigit || c = '_'

/-- Characters matched by the regex class `\s`. -/
def isSpaceChar (c : Char) : Bool :=
  c = ' ' || c = '\t' || c = '\n' || c = '\r' || c = '\x0b' || c = '\x0c'

/-- Characters matched by the regex class `\d` (ASCII digits). -/
def isDigitChar (c : Char) : Bool :=
  c.isDigit

/-- Match a literal at the head of the input, returning the remainder. -/
def stripLit (pat s : List Char) : Option (List Char) :=
  if pat.isPrefixOf s then some (s.drop pat.length) else Option.none

/-- The capture groups of the part of the text-benchmark regex after the
size segment: `-\d+\s+(\d+)\s+([\d.]+)\s+ns/op` followed by the two
optional metric groups. -/
structure TextTail where
  iters : List Char
  nsStr : List Char
  bytesStr : Option (List Char)
  allocsStr : Option (List Char)
deriving DecidableEq

/-- One optional metric group `(?:\s+(\d+)\s+<lit>)?` of the
text-benchmark regex.  The group is greedy, so it is consumed whenever it
matches at the current position; each maximal `\s+`/`\d+` run is forced
because backtracking a run would place a space or digit where the opposite
class is required. -/
def tryMetricGroup (lit s : List Char) : Option (List Char) × List Char :=
  let sp := s.takeWhile isSpaceChar
  let s1 := s.dropWhile isSpaceChar
  if sp = [] then (Option.none, s) else
  let d := s1.takeWhile isDigitChar
  let s2 := s1.dropWhile isDigitChar
  if d = [] then (Option.none, s) else
  let sp2 := s2.takeWhile isSpaceChar
  let s3 := s2.dropWhile isSpaceChar
  if sp2 = [] then (Option.none, s) else
  match stripLit lit s3 with
  | some s4 => (some d, s4)
  | Option.none => (Option.none, s)

/-- The tail of the text-benchmark regex,
`-\d+\s+(\d+)\s+([\d.]+)\s+ns/op(?:\s+(\d+)\s+B/op)?(?:\s+(\d+)\s+allocs/op)?`.
Each quantified run is taken maximally: shrinking a `\d+`, `[\d.]+` or
`\s+` run would leave a character of the same class where the following
piece requires a different class, so the regex engine's backtracking never
produces a different match.  The regex is not end-anchored: trailing text
is ignored. -/
def matchTail (s : List Char) : Option TextTail :=
  match s with
  | '-' :: s1 =>
    let d0 := s1.takeWhile isDigitChar
    let s2 := s1.dropWhile isDigitChar
    if d0 = [] then Option.none else
    let sp1 := s2.takeWhile isSpaceChar
    let s3 := s2.dropWhile isSpaceChar
    if sp1 = [] then Option.none else
    let iters := s3.takeWhile isDigitChar
    let s4 := s3.dropWhile isDigitChar
    if iters = [] then Option.none else
    let sp2 := s4.takeWhile isSpaceChar
    let s5 := s4.dropWhile isSpaceChar
    if sp2 = [] then Option.none else
    let ns := s5.takeWhile (fun c => isDigitChar c || c = '.')
    let s6 := s5.dropWhile (fun c => isDigitChar c || c = '.')
    if ns = [] then Option.none else
    let sp3 := s6.takeWhile isSpaceChar
    let s7 := s6.dropWhile isSpaceChar
    if sp3 = [] then Option.none else
    match stripLit "ns/op".toList s7 with
    | Option.none => Option.none
    | some s8 =>
      let bRes := tryMetricGroup "B/op".toList s8
      let aRes := tryMetricGroup "allocs/op".toList bRes.2
      some ⟨iters, ns, bRes.1, aRes.1⟩
  | _ => Option.none

/-- The lazy variant group `(.+?)` followed by the regex tail: consume one
character at a time (`.` does not match a newline) and stop at the first
position where the tail matches, which is exactly the lazy-quantifier
semantics. -/
def findVariant (acc : List Char) : List Char → Option (List Char × TextTail)
  | [] => Option.none
  | c :: cs =>
    if c = '\n' then Option.none
    else
      match matchTail cs with
      | some t => some (acc ++ [c], t)
      | Option.none => findVariant (acc ++ [c]) cs

/-- All capture groups of the text-benchmark regex. -/
structure TextMatch where
  op : List Char
  impl : List Char
  size : List Char
  variant : Option (List Char)
  tail : TextTail
deriving DecidableEq

/-- `re.match` of the source pattern (line 99)
`^Benchmark(\w+)/(gohivex|hivex)/(\w+)(?:/(.+?))?-\d+\s+(\d+)\s+([\d.]+)\s+ns/op(?:\s+(\d+)\s+B/op)?(?:\s+(\d+)\s+allocs/op)?`.
The `(\w+)` runs are taken maximally because they are each followed by a
non-word character (`/`, `-`); the alternation `(gohivex|hivex)` is
deterministic because neither literal is a prefix of the other; the
optional variant group must be entered exactly when the character after
the size run is `/`, because the group starts with `/` while the
alternative continuation starts with `-`. -/
def matchTextLine (s : List Char) : Option TextMatch :=
  match stripLit "Benchmark".toList s with
  | Option.none => Option.none
  | some s1 =>
    let op := s1.takeWhile isWordChar
    let s2 := s1.dropWhile isWordChar
    if op = [] then Option.none else
    match s2 with
    | '/' :: s3 =>
      let implRes : Option (List Char × List Char) :=
        match stripLit "gohivex".toList s3 with
        | some s4 => some ("gohivex".toList, s4)
        | Option.none =>
          match stripLit "hivex".toList s3 with
          | some s4 => some ("hivex".toList, s4)
          | Option.none => Option.none
      match implRes with
      | Option.none => Option.none
      | some (impl, s4) =>
        match s4 with
        | '/' :: s5 =>
          let size := s5.takeWhile isWordChar
          let s6 := s5.dropWhile isWordChar
          if size = [] then Option.none else
          match s6 with
          | '/' :: s7 =>
            match findVariant [] s7 with
            | some (v, t) => some ⟨op, impl, size, some v, t⟩
            | Option.none => Option.none
          | _ =>
            match matchTail s6 with
            | some t => some ⟨op, impl, size, Option.none, t⟩
            | Option.none => Option.none
        | _ => Option.none
    | _ => Option.none

/-- Value of a string of ASCII digits (Python `int` on a `\d+` capture). -/
def digitsToNat (ds : List Char) : Nat :=
  ds.foldl (fun n c => n * 10 + (c.toNat - 48)) 0

/-- Python `float()` on a string drawn from the alphabet `[0-9.]` (the
`[\d.]+` capture group): accepted iff it has at most one dot and at least
one digit, e.g. `150.2`, `1.`, `.5`, `7`; raises `ValueError` on `.`,
`..`, `1.2.3`.  The exact decimal value is returned (the script's use of
binary floating point is abstracted to exact rationals). -/
def pyFloat (s : String) : Except PyErr ℚ :=
  let cs := s.toList
  let dots := cs.count '.'
  if dots = 0 then
    if cs = [] then .error PyErr.valueError
    else .ok (digitsToNat cs)
  else if dots = 1 then
    let intPart := cs.takeWhile (fun c => c ≠ '.')
    let fracPart := (cs.dropWhile (fun c => c ≠ '.')).tail
    if intPart = [] ∧ fracPart = [] then .error PyErr.valueError
    else .ok ((digitsToNat intPart : ℚ) +
              (digitsToNat fracPart : ℚ) / (10 ^ fracPart.length))
  else .error PyErr.valueError

/-- `parse_text_benchmark` (source lines 96-121).  A line that does not
match the regex gives `None`; on a match, `float()` applied to the
`[\d.]+` capture can raise `ValueError` (e.g. on `.`), which propagates
uncaught; the `\d+` captures always convert. -/
def parse_text_benchmark (line : String) : Except PyErr (Option BenchmarkResult) :=
  match matchTextLine line.toList with
  | Option.none => .ok Option.none
  | some m =>
    match pyFloat (String.mk m.tail.nsStr) with
    | .error e => .error e
    | .ok q =>
      let operation := String.mk m.op
      let impl := String.mk m.impl
      let hive_size := String.mk m.size
      let variant := match m.variant with
        | some v => String.mk v
        | Option.none => ""
      let display_name :=
        if variant ≠ "" then operation ++ "/" ++ variant else operation
      .ok (some
        { name := "Benchmark" ++ operation ++ "/" ++ impl ++ "/" ++
              hive_size ++ "/" ++ variant
          operation := display_name
          hive_size := hive_size
          impl := impl
          iterations := PyVal.int (digitsToNat m.tail.iters)
          ns_per_op := PyVal.float q
          bytes_per_op := PyVal.int (match m.tail.bytesStr with
            | some d => (digitsToNat d : Int)
            | Option.none => 0)
          allocs_per_op := PyVal.int (match m.tail.allocsStr with
            | some d => (digitsToNat d : Int)
            | Option.none => 0) })

/-- `ComparisonResult` (source lines 39-58).  Fields start at the zero
values set by `__init__`; the numeric fields are dynamically typed because
they are copied verbatim from `BenchmarkResult` fields. -/
structure ComparisonResult where
  operation : String
  hive_size : String
  gohivex_ns : PyVal
  hivex_ns : PyVal
  speedup : PyVal
  gohivex_mem : PyVal
  hivex_mem : PyVal
  gohivex_allocs : PyVal
  hivex_allocs : PyVal
  gohivex_only : Bool
deriving DecidableEq

/-- `ComparisonResult(operation, hive_size)` as built by `__init__`
(source lines 41-51): times and speedup are the float `0.0`, the memory
and allocation counters the int `0`, `gohivex_only` is `False`. -/
def initComparison (operation hive_size : String) : ComparisonResult :=
  { operation := operation
    hive_size := hive_size
    gohivex_ns := PyVal.float 0
    hivex_ns := PyVal.float 0
    speedup := PyVal.float 0
    gohivex_mem := PyVal.int 0
    hivex_mem := PyVal.int 0
    gohivex_allocs := PyVal.int 0
    hivex_allocs := PyVal.int 0
    gohivex_only := false }

/-- The fixed set `MUTATION_OPERATIONS` (source lines 157-160). -/
def MUTATION_OPERATIONS : List String :=
  ["NodeAddChild", "NodeSetValue", "NodeSetValues", "NodeDeleteChild",
   "Commit", "IntrospectionRecursive"]

/-- The record filter inside the grouping loop of `generate_comparisons`
(source lines 164-172): compute `operation_base = operation.split('/')[0]`,
test membership in `MUTATION_OPERATIONS`, and skip mutation records for
`standard` runs and non-mutation records for `mutation` runs.  `split`
never returns an empty list, so indexing with 0 cannot fail. -/
def passesFilter (filter_type : String) (r : BenchmarkResult) : Bool :=
  let operation_base := (pySplit r.operation '/').headD ""
  let is_mutation := MUTATION_OPERATIONS.contains operation_base
  if filter_type == "standard" && is_mutation then false
  else if filter_type == "mutation" && !is_mutation then false
  else true

/-- Append `r` to the group of `key` in an insertion-ordered association
list, creating the group at the end when `key` is new: the behaviour of
`defaultdict(list)` under `groups[key].append(result)` together with
Python's insertion-ordered dict iteration. -/
def addToGroups (gs : List ((String × String) × List BenchmarkResult))
    (key : String × String) (r : BenchmarkResult) :
    List ((String × String) × List BenchmarkResult) :=
  match gs with
  | [] => [(key, [r])]
  | (k, rs) :: rest =>
    if k = key then (k, rs ++ [r]) :: rest
    else (k, rs) :: addToGroups rest key r

/-- The grouping loop of `generate_comparisons` (source lines 163-175). -/
def buildGroups (results : List BenchmarkResult) (filter_type : String) :
    List ((String × String) × List BenchmarkResult) :=
  results.foldl
    (fun gs r =>
      if passesFilter filter_type r then
        addToGroups gs (r.operation, r.hive_size) r
      else gs)
    []

/-- The per-group record-selection loop (source lines 179-186): one pass
over the group; a `gohivex` record overwrites the `gohivex` slot, else a
`hivex` record overwrites the `hivex` slot, so the last record per
implementation tag wins. -/
def selectImpls (group : List BenchmarkResult) :
    Option BenchmarkResult × Option BenchmarkResult :=
  group.foldl
    (fun acc r =>
      if r.impl == "gohivex" then (some r, acc.2)
      else if r.impl == "hivex" then (acc.1, some r)
      else acc)
    (Option.none, Option.none)

/-- Field population of a fresh `ComparisonResult` (source lines 188-201):
copy the three metrics of each present implementation record, then set
`gohivex_only` when a `gohivex` record is present and no `hivex` record
is. -/
def populate (operation hive_size : String)
    (gohivex hivex : Option BenchmarkResult) : ComparisonResult :=
  let comp := initComparison operation hive_size
  let comp :=
    match gohivex with
    | some g =>
      { comp with gohivex_ns := g.ns_per_op, gohivex_mem := g.bytes_per_op
                  gohivex_allocs := g.allocs_per_op }
    | Option.none => comp
  let comp :=
    match hivex with
    | some h =>
      { comp with hivex_ns := h.ns_per_op, hivex_mem := h.bytes_per_op
                  hivex_allocs := h.allocs_per_op }
    | Option.none => comp
  if gohivex.isSome && hivex.isNone then { comp with gohivex_only := true }
  else comp

/-- The numeric view a Python comparison or division takes of a value:
ints and floats by value, bools as 0/1; everything else is non-numeric. -/
def pyToNum? : PyVal → Option ℚ
  | PyVal.int n => some (n : ℚ)
  | PyVal.float q => some q
  | PyVal.bool b => some (if b then 1 else 0)
  | _ => Option.none

/-- Strict lexicographic order on character lists by code point: Python's
`<` on strings. -/
def lexLtB : List Char → List Char → Bool
  | [], [] => false
  | [], _ :: _ => true
  | _ :: _, [] => false
  | c :: cs, d :: ds =>
    if c < d then true else if d < c then false else lexLtB cs ds

/-- Python `a > b` on the values the script compares: numeric values by
value, two strings lexicographically; any other combination raises
`TypeError`. -/
def pyGt (a b : PyVal) : Except PyErr Bool :=
  match pyToNum? a, pyToNum? b with
  | some x, some y => .ok (decide (y < x))
  | _, _ =>
    match a, b with
    | PyVal.str s, PyVal.str t => .ok (lexLtB t.toList s.toList)
    | _, _ => .error PyErr.typeError

/-- Python `a / b`: true division of numeric values, always producing a
float; division by zero raises `ZeroDivisionError`, non-numeric operands
raise `TypeError`. -/
def pyDiv (a b : PyVal) : Except PyErr PyVal :=
  match pyToNum? a, pyToNum? b with
  | some x, some y =>
    if y = 0 then .error PyErr.zeroDivisionError
    else .ok (PyVal.float (x / y))
  | _, _ => .error PyErr.typeError

/-- The body of the comparison loop of `generate_comparisons` for one
group (source lines 178-206): select the per-implementation records,
populate the `ComparisonResult`, and set `speedup = hivex_ns / gohivex_ns`
when `gohivex_ns > 0 and hivex_ns > 0` (the `and` short-circuits, so
`hivex_ns` is only compared when the first test is true). -/
def mkComparison (operation hive_size : String)
    (group : List BenchmarkResult) : Except PyErr ComparisonResult :=
  let sel := selectImpls group
  let comp := populate operation hive_size sel.1 sel.2
  match pyGt comp.gohivex_ns (PyVal.int 0) with
  | .error e => .error e
  | .ok false => .ok comp
  | .ok true =>
    match pyGt comp.hivex_ns (PyVal.int 0) with
    | .error e => .error e
    | .ok false => .ok comp
    | .ok true =>
      match pyDiv comp.hivex_ns comp.gohivex_ns with
      | .error e => .error e
      | .ok sp => .ok { comp with speedup := sp }

/-- The comparison-building loop over all groups (source lines 177-206):
an exception raised for any group aborts the whole call. -/
def buildComparisons :
    List ((String × String) × List BenchmarkResult) →
    Except PyErr (List ComparisonResult)
  | [] => .ok []
  | (key, group) :: gs =>
    match mkComparison key.1 key.2 group with
    | .error e => .error e
    | .ok c =>
      match buildComparisons gs with
      | .error e => .error e
      | .ok cs => .ok (c :: cs)

/-- The sort key order of `comparisons.sort(key=lambda c: (c.operation,
c.hive_size))` (source line 209): lexicographic on the pair of strings,
each string compared by code points. -/
def keyLE (a b : ComparisonResult) : Bool :=
  lexLtB a.operation.toList b.operation.toList ||
    (a.operation == b.operation &&
      (lexLtB a.hive_size.toList b.hive_size.toList || a.hive_size == b.hive_size))

/-- Insert into a sorted list, before the first element that is not
strictly smaller (keeping equal keys in their original order, as Python's
stable sort does). -/
def insertSorted (c : ComparisonResult) :
    List ComparisonResult → List ComparisonResult
  | [] => [c]
  | d :: ds => if keyLE c d then c :: d :: ds else d :: insertSorted c ds

/-- `comparisons.sort(key=lambda c. (c.operation, c.hive_size))` (source
line 209), modelled by a stable insertion sort: any two stable sorts by
the same total preorder agree, and the grouping keys, which are also the
sort keys, are pairwise distinct here, so every correct sort produces the
same list as Python's Timsort. -/
def sortComparisons : List ComparisonResult → List ComparisonResult
  | [] => []
  | c :: cs => insertSorted c (sortComparisons cs)

/-- `generate_comparisons` (source lines 148-211). -/
def generate_comparisons (results : List BenchmarkResult)
    (filter_type : String) : Except PyErr (List ComparisonResult) :=
  match buildComparisons (buildGroups results filter_type) with
  | .error e => .error e
  | .ok comparisons => .ok (sortComparisons comparisons)

/-- The `operation/variant` suffix appended to the display name: `/v` when
a fourth non-empty `Name` segment `v` exists, empty otherwise. -/
def variantSuffix : List String → String
  | _ :: v :: _ => if v = "" then "" else "/" ++ v
  | _ => ""

/-- The record parsed from `{"Name": "FooBenchmarkBar/hivex/small"}`. -/
def c2mid : BenchmarkResult :=
  { name := "FooBenchmarkBar/hivex/small", operation := "FooBar"
    hive_size := "small", impl := "hivex", iterations := PyVal.int 0
    ns_per_op := PyVal.float 0, bytes_per_op := PyVal.int 0
    allocs_per_op := PyVal.int 0 }

/-- A `gohivex` measurement of operation `Op` on size `small`, used as
concrete witness input. -/
def wOpG : BenchmarkResult :=
  { name := "BenchmarkOp/gohivex/small", operation := "Op"
    hive_size := "small", impl := "gohivex", iterations := PyVal.int 1
    ns_per_op := PyVal.float 2, bytes_per_op := PyVal.int 10
    allocs_per_op := PyVal.int 1 }

/-- A `hivex` measurement of the same operation and size. -/
def wOpH : BenchmarkResult :=
  { name := "BenchmarkOp/hivex/small", operation := "Op"
    hive_size := "small", impl := "hivex", iterations := PyVal.int 1
    ns_per_op := PyVal.float 3, bytes_per_op := PyVal.int 20
    allocs_per_op := PyVal.int 2 }

/-- A second `gohivex` measurement of the same operation and size. -/
def wOpG2 : BenchmarkResult :=
  { name := "BenchmarkOp/gohivex/small", operation := "Op"
    hive_size := "small", impl := "gohivex", iterations := PyVal.int 1
    ns_per_op := PyVal.float 7, bytes_per_op := PyVal.int 30
    allocs_per_op := PyVal.int 4 }

/-- A `gohivex` measurement of operation `Aaa` on size `z`. -/
def wAaaG : BenchmarkResult :=
  { name := "BenchmarkAaa/gohivex/z", operation := "Aaa"
    hive_size := "z", impl := "gohivex", iterations := PyVal.int 1
    ns_per_op := PyVal.float 2, bytes_per_op := PyVal.int 5
    allocs_per_op := PyVal.int 1 }

/-- The comparison produced for the group `[wOpG, wOpH]`. -/
def cmpOpBoth : ComparisonResult :=
  { operation := "Op", hive_size := "small"
    gohivex_ns := PyVal.float 2, hivex_ns := PyVal.float 3
    speedup := PyVal.float (3/2)
    gohivex_mem := PyVal.int 10, hivex_mem := PyVal.int 20
    gohivex_allocs := PyVal.int 1, hivex_allocs := PyVal.int 2
    gohivex_only := false }

/-- The comparison produced for the group `[wOpG]` alone. -/
def cmpOpOnly : ComparisonResult :=
  { operation := "Op", hive_size := "small"
    gohivex_ns := PyVal.float 2, hivex_ns := PyVal.float 0
    speedup := PyVal.float 0
    gohivex_mem := PyVal.int 10, hivex_mem := PyVal.int 0
    gohivex_allocs := PyVal.int 1, hivex_allocs := PyVal.int 0
    gohivex_only := true }

/-- The comparison produced for the group `[wAaaG]` alone. -/
def cmpAaaOnly : ComparisonResult :=
  { operation := "Aaa", hive_size := "z"
    gohivex_ns := PyVal.float 2, hivex_ns := PyVal.float 0
    speedup := PyVal.float 0
    gohivex_mem := PyVal.int 5, hivex_mem := PyVal.int 0
    gohivex_allocs := PyVal.int 1, hivex_allocs := PyVal.int 0
    gohivex_only := true }

/-- The comparison produced for the duplicate group `[wOpG, wOpG2]`. -/
def cmpOpLast : ComparisonResult :=
  { operation := "Op", hive_size := "small"
    gohivex_ns := PyVal.float 7, hivex_ns := PyVal.float 0
    speedup := PyVal.float 0
    gohivex_mem := PyVal.int 30, hivex_mem := PyVal.int 0
    gohivex_allocs := PyVal.int 4, hivex_allocs := PyVal.int 0
    gohivex_only := true }

/-- The record parsed from `{"Name": "BenchmarkFoo/rust/small", "T": 5.0}`. -/
def w9rec : BenchmarkResult :=
  { name := "BenchmarkFoo/rust/small", operation := "Foo"
    hive_size := "small", impl := "rust", iterations := PyVal.int 0
    ns_per_op := PyVal.float 5, bytes_per_op := PyVal.int 0
    allocs_per_op := PyVal.int 0 }

/-- The record parsed from `{"Name": "BenchmarkFoo/gohivex/small"}`. -/
def w10rec : BenchmarkResult :=
  { name := "BenchmarkFoo/gohivex/small", operation := "Foo"
    hive_size := "small", impl := "gohivex", iterations := PyVal.int 0
    ns_per_op := PyVal.float 0, bytes_per_op := PyVal.int 0
    allocs_per_op := PyVal.int 0 }

/-! Order properties of the sort key. -/

lemma lexLtB_trans : ∀ a b c : List Char,
    lexLtB a b = true → lexLtB b c = true → lexLtB a c = true := by
  intro a
  induction a with
  | nil =>
    intro b c hab hbc
    cases b with
    | nil => simp [lexLtB] at hab
    | cons y ys =>
      cases c with
      | nil => simp [lexLtB] at hbc
      | cons z zs => simp [lexLtB]
  | cons x xs ih =>
    intro b c hab hbc
    cases b with
    | nil => simp [lexLtB] at hab
    | cons y ys =>
      cases c with
      | nil => simp [lexLtB] at hbc
      | cons z zs =>
        simp only [lexLtB] at hab hbc ⊢
        by_cases hxy : x < y
        · by_cases hyz : y < z
          · simp [lt_trans hxy hyz]
          · by_cases hzy : z < y
            · simp [hyz, hzy] at hbc
            · have hyEz : y = z := le_antisymm (not_lt.mp hzy) (not_lt.mp hyz)
              subst hyEz
              simp [hxy]
        · by_cases hyx : y < x
          · simp [hxy, hyx] at hab
          · have hxEy : x = y := le_antisymm (not_lt.mp hyx) (not_lt.mp hxy)
            subst hxEy
            by_cases hyz : x < z
            · simp [hyz]
            · by_cases hzy : z < x
              · simp [hyz, hzy] at hbc
              · simp only [hxy, if_neg hxy, if_neg hyz, if_neg hzy] at hab hbc ⊢
                exact ih ys zs hab hbc

lemma lexLtB_or_eq : ∀ a b : List Char,
    lexLtB a b = true ∨ a = b ∨ lexLtB b a = true := by
  intro a
  induction a with
  | nil =>
    intro b
    cases b with
    | nil => exact Or.inr (Or.inl rfl)
    | cons y ys => exact Or.inl (by simp [lexLtB])
  | cons x xs ih =>
    intro b
    cases b with
    | nil => exact Or.inr (Or.inr (by simp [lexLtB]))
    | cons y ys =>
      rcases lt_trichotomy x y with hxy | hxy | hxy
      · exact Or.inl (by simp [lexLtB, hxy])
      · subst hxy
        rcases ih ys with h | h | h
        · exact Or.inl (by simp [lexLtB, h])
        · exact Or.inr (Or.inl (by rw [h]))
        · exact Or.inr (Or.inr (by simp [lexLtB, h]))
      · exact Or.inr (Or.inr (by simp [lexLtB, hxy]))

lemma keyLE_iff {a b : ComparisonResult} :
    keyLE a b = true ↔
      (lexLtB a.operation.toList b.operation.toList = true ∨
        (a.operation = b.operation ∧
          (lexLtB a.hive_size.toList b.hive_size.toList = true ∨
            a.hive_size = b.hive_size))) := by
  simp [keyLE, Bool.or_eq_true, Bool.and_eq_true, beq_iff_eq]

lemma keyLE_total (a b : ComparisonResult) :
    keyLE a b = true ∨ keyLE b a = true := by
  rcases lexLtB_or_eq a.operation.toList b.operation.toList with h | h | h
  · exact Or.inl (keyLE_iff.mpr (Or.inl h))
  · have hop : a.operation = b.operation := String.toList_inj.mp h
    rcases lexLtB_or_eq a.hive_size.toList b.hive_size.toList with h2 | h2 | h2
    · exact Or.inl (keyLE_iff.mpr (Or.inr ⟨hop, Or.inl h2⟩))
    · exact Or.inl (keyLE_iff.mpr (Or.inr ⟨hop, Or.inr (String.toList_inj.mp h2)⟩))
    · exact Or.inr (keyLE_iff.mpr (Or.inr ⟨hop.symm, Or.inl h2⟩))
  · exact Or.inr (keyLE_iff.mpr (Or.inl h))

lemma keyLE_trans {a b c : ComparisonResult}
    (hab : keyLE a b = true) (hbc : keyLE b c = true) : keyLE a c = true := by
  rcases keyLE_iff.mp hab with h1 | ⟨h1, h1'⟩
  · rcases keyLE_iff.mp hbc with h2 | ⟨h2, _⟩
    · exact keyLE_iff.mpr (Or.inl (lexLtB_trans _ _ _ h1 h2))
    · exact keyLE_iff.mpr (Or.inl (h2 ▸ h1))
  · rcases keyLE_iff.mp hbc with h2 | ⟨h2, h2'⟩
    · exact keyLE_iff.mpr (Or.inl (h1 ▸ h2))
    · refine keyLE_iff.mpr (Or.inr ⟨h1.trans h2, ?_⟩)
      rcases h1' with h1' | h1'
      · rcases h2' with h2' | h2'
        · exact Or.inl (lexLtB_trans _ _ _ h1' h2')
        · exact Or.inl (h2' ▸ h1')
      · rcases h2' with h2' | h2'
        · exact Or.inl (h1' ▸ h2')
        · exact Or.inr (h1'.trans h2')

/-! The sort is a permutation producing a key-sorted list. -/

lemma mem_insertSorted {x c : ComparisonResult} :
    ∀ {l : List ComparisonResult}, x ∈ insertSorted c l ↔ x = c ∨ x ∈ l := by
  intro l
  induction l with
  | nil => simp [insertSorted]
  | cons d ds ih =>
    by_cases h : keyLE c d = true
    · simp [insertSorted, h]
    · simp only [insertSorted, if_neg h, List.mem_cons, ih]
      tauto

lemma pairwise_insertSorted {c : ComparisonResult}
    {l : List ComparisonResult}
    (h : l.Pairwise (fun a b => keyLE a b = true)) :
    (insertSorted c l).Pairwise (fun a b => keyLE a b = true) := by
  induction l with
  | nil => simp [insertSorted]
  | cons d ds ih =>
    rw [List.pairwise_cons] at h
    by_cases hcd : keyLE c d = true
    · rw [insertSorted, if_pos hcd, List.pairwise_cons]
      refine ⟨?_, List.pairwise_cons.mpr h⟩
      intro x hx
      rcases List.mem_cons.mp hx with hx | hx
      · exact hx ▸ hcd
      · exact keyLE_trans hcd (h.1 x hx)
    · rw [insertSorted, if_neg hcd, List.pairwise_cons]
      refine ⟨?_, ih h.2⟩
      intro x hx
      rcases mem_insertSorted.mp hx with hx | hx
      · subst hx
        rcases keyLE_total x d with h' | h'
        · exact absurd h' hcd
        · exact h'
      · exact h.1 x hx

lemma pairwise_sortComparisons (l : List ComparisonResult) :
    (sortComparisons l).Pairwise (fun a b => keyLE a b = true) := by
  induction l with
  | nil => simp [sortComparisons]
  | cons c cs ih => exact pairwise_insertSorted ih

lemma mem_sortComparisons {x : ComparisonResult} :
    ∀ {l : List ComparisonResult}, x ∈ sortComparisons l ↔ x ∈ l := by
  intro l
  induction l with
  | nil => simp [sortComparisons]
  | cons c cs ih =>
    simp only [sortComparisons, mem_insertSorted, List.mem_cons, ih]

/-! Characterization of the per-group loops. -/

lemma selectImpls_foldl (l : List BenchmarkResult) :
    ∀ acc : Option BenchmarkResult × Option BenchmarkResult,
    l.foldl
      (fun acc r =>
        if r.impl == "gohivex" then (some r, acc.2)
        else if r.impl == "hivex" then (acc.1, some r)
        else acc) acc =
    ((l.reverse.find? (fun r => r.impl == "gohivex")).or acc.1,
     (l.reverse.find? (fun r => r.impl == "hivex")).or acc.2) := by
  induction l with
  | nil => intro acc; simp
  | cons r rs ih =>
    intro acc
    rw [List.foldl_cons, ih, List.reverse_cons, List.find?_append,
        List.find?_append, Option.or_assoc, Option.or_assoc]
    cases hg : (r.impl == "gohivex") with
    | true =>
      have hh : (r.impl == "hivex") = false := by
        rw [beq_iff_eq.mp hg]
        rfl
      simp [List.find?_cons, hg, hh]
    | false =>
      cases hh : (r.impl == "hivex") with
      | true => simp [List.find?_cons, hg, hh]
      | false => simp [List.find?_cons, hg, hh]

/-- The selection loop picks, for each implementation tag, the last record
of the group carrying that tag. -/
lemma selectImpls_eq (group : List BenchmarkResult) :
    selectImpls group =
      (group.reverse.find? (fun r => r.impl == "gohivex"),
       group.reverse.find? (fun r => r.impl == "hivex")) := by
  rw [selectImpls, selectImpls_foldl]
  simp

lemma populate_operation (op hs : String) (g h : Option BenchmarkResult) :
    (populate op hs g h).operation = op := by
  cases g <;> cases h <;> rfl

lemma populate_hive_size (op hs : String) (g h : Option BenchmarkResult) :
    (populate op hs g h).hive_size = hs := by
  cases g <;> cases h <;> rfl

lemma populate_speedup (op hs : String) (g h : Option BenchmarkResult) :
    (populate op hs g h).speedup = PyVal.float 0 := by
  cases g <;> cases h <;> rfl

lemma populate_gohivex_only (op hs : String) (g h : Option BenchmarkResult) :
    (populate op hs g h).gohivex_only = (g.isSome && h.isNone) := by
  cases g <;> cases h <;> rfl

lemma populate_gohivex_ns (op hs : String) (g h : Option BenchmarkResult) :
    (populate op hs g h).gohivex_ns =
      (match g with | some r => r.ns_per_op | Option.none => PyVal.float 0) := by
  cases g <;> cases h <;> rfl

lemma populate_gohivex_mem (op hs : String) (g h : Option BenchmarkResult) :
    (populate op hs g h).gohivex_mem =
      (match g with | some r => r.bytes_per_op | Option.none => PyVal.int 0) := by
  cases g <;> cases h <;> rfl

lemma populate_gohivex_allocs (op hs : String) (g h : Option BenchmarkResult) :
    (populate op hs g h).gohivex_allocs =
      (match g with | some r => r.allocs_per_op | Option.none => PyVal.int 0) := by
  cases g <;> cases h <;> rfl

lemma populate_hivex_ns (op hs : String) (g h : Option BenchmarkResult) :
    (populate op hs g h).hivex_ns =
      (match h with | some r => r.ns_per_op | Option.none => PyVal.float 0) := by
  cases g <;> cases h <;> rfl

lemma populate_hivex_mem (op hs : String) (g h : Option BenchmarkResult) :
    (populate op hs g h).hivex_mem =
      (match h with | some r => r.bytes_per_op | Option.none => PyVal.int 0) := by
  cases g <;> cases h <;> rfl

lemma populate_hivex_allocs (op hs : String) (g h : Option BenchmarkResult) :
    (populate op hs g h).hivex_allocs =
      (match h with | some r => r.allocs_per_op | Option.none => PyVal.int 0) := by
  cases g <;> cases h <;> rfl

lemma pyGt_int0_ok {v : PyVal} {b : Bool}
    (h : pyGt v (PyVal.int 0) = .ok b) :
    ∃ q, pyToNum? v = some q ∧ b = decide (0 < q) := by
  cases v with
  | str s => simp [pyGt, pyToNum?] at h
  | int n =>
    refine ⟨(n : ℚ), rfl, ?_⟩
    simp only [pyGt, pyToNum?, Int.cast_zero, Except.ok.injEq] at h
    exact h.symm
  | float q =>
    refine ⟨q, rfl, ?_⟩
    simp only [pyGt, pyToNum?, Int.cast_zero, Except.ok.injEq] at h
    exact h.symm
  | bool bb =>
    refine ⟨if bb then 1 else 0, rfl, ?_⟩
    simp only [pyGt, pyToNum?, Int.cast_zero, Except.ok.injEq] at h
    exact h.symm
  | pyNone => simp [pyGt, pyToNum?] at h

lemma pyDiv_ok {a b v : PyVal} (h : pyDiv a b = .ok v) :
    ∃ x y, pyToNum? a = some x ∧ pyToNum? b = some y ∧ y ≠ 0 ∧
      v = PyVal.float (x / y) := by
  unfold pyDiv at h
  cases ha : pyToNum? a with
  | none => rw [ha] at h; cases b <;> simp [pyToNum?] at h
  | some x =>
    cases hb : pyToNum? b with
    | none => rw [ha, hb] at h; simp at h
    | some y =>
      rw [ha, hb] at h
      by_cases hy : y = 0
      · simp [hy] at h
      · simp only [if_neg hy, Except.ok.injEq] at h
        exact ⟨x, y, rfl, rfl, hy, h.symm⟩

/-- Case analysis of a successful `mkComparison`: either both selected
times are positive numbers and the result is the populated record with
`speedup` set to the quotient, or the result is exactly the populated
record (whose `speedup` is the float `0`) and the times are not both
positive numbers. -/
lemma mkComparison_ok {op hs : String} {group : List BenchmarkResult}
    {c : ComparisonResult}
    (h : mkComparison op hs group = .ok c) :
    (∃ qg qh,
        pyToNum? (populate op hs (selectImpls group).1 (selectImpls group).2).gohivex_ns = some qg ∧
        pyToNum? (populate op hs (selectImpls group).1 (selectImpls group).2).hivex_ns = some qh ∧
        0 < qg ∧ 0 < qh ∧
        c = { populate op hs (selectImpls group).1 (selectImpls group).2 with
                speedup := PyVal.float (qh / qg) }) ∨
    (c = populate op hs (selectImpls group).1 (selectImpls group).2 ∧
      ¬((∃ qg, pyToNum? (populate op hs (selectImpls group).1 (selectImpls group).2).gohivex_ns = some qg ∧ 0 < qg) ∧
        (∃ qh, pyToNum? (populate op hs (selectImpls group).1 (selectImpls group).2).hivex_ns = some qh ∧ 0 < qh))) := by
  simp only [mkComparison] at h
  set comp := populate op hs (selectImpls group).1 (selectImpls group).2 with hcomp
  cases hg : pyGt comp.gohivex_ns (PyVal.int 0) with
  | error e => rw [hg] at h; cases h
  | ok bg =>
    rw [hg] at h
    obtain ⟨qg, hqg, hbg⟩ := pyGt_int0_ok hg
    cases bg with
    | false =>
      obtain rfl : comp = c := Except.ok.inj h
      refine Or.inr ⟨rfl, ?_⟩
      rintro ⟨⟨qg', hqg', hpos⟩, -⟩
      rw [hqg] at hqg'
      cases hqg'
      rw [eq_comm, decide_eq_false_iff_not] at hbg
      exact hbg hpos
    | true =>
      cases hh : pyGt comp.hivex_ns (PyVal.int 0) with
      | error e => rw [hh] at h; cases h
      | ok bh =>
        rw [hh] at h
        obtain ⟨qh, hqh, hbh⟩ := pyGt_int0_ok hh
        cases bh with
        | false =>
          obtain rfl : comp = c := Except.ok.inj h
          refine Or.inr ⟨rfl, ?_⟩
          rintro ⟨-, ⟨qh', hqh', hpos⟩⟩
          rw [hqh] at hqh'
          cases hqh'
          rw [eq_comm, decide_eq_false_iff_not] at hbh
          exact hbh hpos
        | true =>
          cases hd : pyDiv comp.hivex_ns comp.gohivex_ns with
          | error e => rw [hd] at h; cases h
          | ok sp =>
            rw [hd] at h
            cases h
            obtain ⟨x, y, hx, hy, hy0, hsp⟩ := pyDiv_ok hd
            rw [hqh] at hx
            rw [hqg] at hy
            cases hx
            cases hy
            refine Or.inl ⟨qg, qh, hqg, hqh, ?_, ?_, ?_⟩
            · exact of_decide_eq_true hbg.symm
            · exact of_decide_eq_true hbh.symm
            · rw [hsp]

lemma mem_buildComparisons :
    ∀ {gs : List ((String × String) × List BenchmarkResult)}
      {cs : List ComparisonResult},
    buildComparisons gs = .ok cs → ∀ {c : ComparisonResult}, c ∈ cs →
    ∃ g ∈ gs, mkComparison g.1.1 g.1.2 g.2 = .ok c := by
  intro gs
  induction gs with
  | nil =>
    intro cs h c hc
    cases h
    cases hc
  | cons g gs ih =>
    intro cs h c hc
    rw [buildComparisons] at h
    cases hm : mkComparison g.1.1 g.1.2 g.2 with
    | error e => rw [hm] at h; cases h
    | ok c0 =>
      rw [hm] at h
      cases hb : buildComparisons gs with
      | error e => rw [hb] at h; cases h
      | ok cs0 =>
        rw [hb] at h
        cases h
        rcases List.mem_cons.mp hc with hc | hc
        · exact ⟨g, List.mem_cons_self g gs, hc ▸ hm⟩
        · obtain ⟨g', hg', hm'⟩ := ih hb hc
          exact ⟨g', List.mem_cons_of_mem g hg', hm'⟩

/-! Membership in the grouping structure. -/

lemma mem_addToGroups (key : String × String) (r x : BenchmarkResult) :
    ∀ gs : List ((String × String) × List BenchmarkResult),
    (∃ g ∈ addToGroups gs key r, x ∈ g.2) ↔ (∃ g ∈ gs, x ∈ g.2) ∨ x = r := by
  intro gs
  induction gs with
  | nil => simp [addToGroups]
  | cons g gs ih =>
    obtain ⟨k, rs⟩ := g
    by_cases hk : k = key
    · subst hk
      simp only [addToGroups, if_pos rfl]
      constructor
      · rintro ⟨g', hg', hx⟩
        rcases List.mem_cons.mp hg' with rfl | hg'
        · rcases List.mem_append.mp hx with hx | hx
          · exact Or.inl ⟨(k, rs), List.mem_cons_self _ _, hx⟩
          · exact Or.inr (List.mem_singleton.mp hx)
        · exact Or.inl ⟨g', List.mem_cons_of_mem _ hg', hx⟩
      · rintro (⟨g', hg', hx⟩ | rfl)
        · rcases List.mem_cons.mp hg' with rfl | hg'
          · exact ⟨(k, rs ++ [r]), List.mem_cons_self _ _,
              List.mem_append.mpr (Or.inl hx)⟩
          · exact ⟨g', List.mem_cons_of_mem _ hg', hx⟩
        · exact ⟨_, List.mem_cons_self _ _,
            List.mem_append.mpr (Or.inr (List.mem_singleton.mpr rfl))⟩
    · simp only [addToGroups, if_neg hk]
      constructor
      · rintro ⟨g', hg', hx⟩
        rcases List.mem_cons.mp hg' with rfl | hg'
        · exact Or.inl ⟨(k, rs), List.mem_cons_self _ _, hx⟩
        · rcases ih.mp ⟨g', hg', hx⟩ with ⟨g'', hg'', hx'⟩ | h
          · exact Or.inl ⟨g'', List.mem_cons_of_mem _ hg'', hx'⟩
          · exact Or.inr h
      · rintro (⟨g', hg', hx⟩ | rfl)
        · rcases List.mem_cons.mp hg' with rfl | hg'
          · exact ⟨(k, rs), List.mem_cons_self _ _, hx⟩
          · obtain ⟨g'', hg'', hx'⟩ := ih.mpr (Or.inl ⟨g', hg', hx⟩)
            exact ⟨g'', List.mem_cons_of_mem _ hg'', hx'⟩
        · obtain ⟨g'', hg'', hx'⟩ := ih.mpr (Or.inr rfl)
          exact ⟨g'', List.mem_cons_of_mem _ hg'', hx'⟩

lemma mem_buildGroups_foldl (ft : String) (x : BenchmarkResult) :
    ∀ (results : List BenchmarkResult)
      (acc : List ((String × String) × List BenchmarkResult)),
    (∃ g ∈ results.foldl
        (fun gs r =>
          if passesFilter ft r then addToGroups gs (r.operation, r.hive_size) r
          else gs) acc, x ∈ g.2) ↔
    (∃ g ∈ acc, x ∈ g.2) ∨ (x ∈ results ∧ passesFilter ft x = true) := by
  intro results
  induction results with
  | nil => intro acc; simp
  | cons r rs ih =>
    intro acc
    rw [List.foldl_cons]
    by_cases hp : passesFilter ft r = true
    · rw [if_pos hp, ih, mem_addToGroups]
      constructor
      · rintro ((h | rfl) | h)
        · exact Or.inl h
        · exact Or.inr ⟨List.mem_cons_self _ _, hp⟩
        · exact Or.inr ⟨List.mem_cons_of_mem _ h.1, h.2⟩
      · rintro (h | ⟨hm, hx⟩)
        · exact Or.inl (Or.inl h)
        · rcases List.mem_cons.mp hm with rfl | hm
          · exact Or.inl (Or.inr rfl)
          · exact Or.inr ⟨hm, hx⟩
    · rw [if_neg hp, ih]
      constructor
      · rintro (h | h)
        · exact Or.inl h
        · exact Or.inr ⟨List.mem_cons_of_mem _ h.1, h.2⟩
      · rintro (h | ⟨hm, hx⟩)
        · exact Or.inl h
        · rcases List.mem_cons.mp hm with rfl | hm
          · exact absurd hx hp
          · exact Or.inr ⟨hm, hx⟩

/-- A record appears in some group of `buildGroups` iff it is an input
record passing the category filter. -/
lemma mem_buildGroups {results : List BenchmarkResult} {ft : String}
    {x : BenchmarkResult} :
    (∃ g ∈ buildGroups results ft, x ∈ g.2) ↔
      (x ∈ results ∧ passesFilter ft x = true) := by
  rw [buildGroups, mem_buildGroups_foldl]
  simp

lemma passesFilter_standard (r : BenchmarkResult) :
    passesFilter "standard" r =
      !(MUTATION_OPERATIONS.contains ((pySplit r.operation '/').headD "")) := by
  cases h : MUTATION_OPERATIONS.contains ((pySplit r.operation '/').headD "") with
  | false => simp only [passesFilter, h]; rfl
  | true => simp only [passesFilter, h]; rfl

lemma passesFilter_mutation (r : BenchmarkResult) :
    passesFilter "mutation" r =
      MUTATION_OPERATIONS.contains ((pySplit r.operation '/').headD "") := by
  cases h : MUTATION_OPERATIONS.contains ((pySplit r.operation '/').headD "") with
  | false => simp only [passesFilter, h]; rfl
  | true => simp only [passesFilter, h]; rfl

/-! Support lemmas about the JSON-line parser's name handling. -/

lemma stringMk_toList (s : String) : String.mk s.toList = s := rfl

lemma display_eq (op : String) (rest : List String) :
    (if (match rest with | _ :: v :: _ => v | _ => "") ≠ "" then
        op ++ "/" ++ (match rest with | _ :: v :: _ => v | _ => "")
      else op) = op ++ variantSuffix rest := by
  match rest with
  | [] => simp [variantSuffix]
  | [h] => simp [variantSuffix]
  | _ :: v :: _ =>
    by_cases hv : v = ""
    · simp [variantSuffix, hv]
    · simp [variantSuffix, hv, String.append_assoc]

lemma replaceFirstList_no_occur {pat : List Char} :
    ∀ {l : List Char}, ¬ (pat <:+: l) → replaceFirstList pat l = l := by
  intro l
  induction l with
  | nil => intro _; rfl
  | cons c cs ih =>
    intro h
    simp only [replaceFirstList]
    rw [if_neg ?_]
    · rw [ih (fun hcs => h (List.infix_cons hcs))]
    · intro hp
      exact h (List.IsPrefix.isInfix (List.isPrefixOf_iff_prefix.mp hp))

lemma replaceFirstList_append (pat rest : List Char) (hne : pat ≠ []) :
    replaceFirstList pat (pat ++ rest) = rest := by
  match pat with
  | [] => exact absurd rfl hne
  | p :: ps =>
    rw [List.cons_append]
    simp only [replaceFirstList]
    rw [if_pos, ← List.cons_append, List.drop_left]
    rw [← List.cons_append]
    exact List.isPrefixOf_iff_prefix.mpr (List.prefix_append _ _)

/-- `pyReplaceFirst` leaves a string without an occurrence of the pattern
unchanged. -/
lemma pyReplaceFirst_no_occur {p0 : String}
    (h : ¬ ("Benchmark".toList <:+: p0.toList)) :
    pyReplaceFirst p0 "Benchmark" = p0 := by
  rw [pyReplaceFirst, replaceFirstList_no_occur h, stringMk_toList]

/-- `pyReplaceFirst` strips a leading occurrence of the pattern. -/
lemma pyReplaceFirst_append (t : String) :
    pyReplaceFirst ("Benchmark" ++ t) "Benchmark" = t := by
  rw [pyReplaceFirst]
  have hl : ("Benchmark" ++ t).toList = "Benchmark".toList ++ t.toList := by
    simp [String.toList, String.data_append]
  rw [hl, replaceFirstList_append _ _ (by decide), stringMk_toList]

/-- A prefix occurrence of `pat` in `(c :: a) ++ (pat ++ b)` lies inside
`((c :: a) ++ pat).dropLast`: the occurrence at position 0 ends strictly
before the marked occurrence does. -/
lemma prefix_dropLast_of_prefix_append {pat b a' : List Char} {c : Char}
    (hp : pat <+: (c :: a') ++ (pat ++ b)) :
    pat <+: ((c :: a') ++ pat).dropLast := by
  have hle : pat.length ≤ ((c :: a') ++ pat).length := by
    simp only [List.length_append, List.length_cons]
    omega
  have hle2 : pat.length ≤ ((c :: a') ++ pat).length - 1 := by
    simp only [List.length_append, List.length_cons]
    omega
  rw [List.prefix_iff_eq_take] at hp
  rw [← List.append_assoc, List.take_append_of_le_length hle] at hp
  rw [List.prefix_iff_eq_take, List.dropLast_eq_take, List.take_take,
      min_eq_left hle2]
  exact hp

/-- `replaceFirstList` removes a marked occurrence of the pattern when no
occurrence starts to its left: the leftmost-occurrence semantics of
Python's `replace(old, '', 1)`. -/
lemma replaceFirstList_leftmost {pat : List Char} (hne : pat ≠ [])
    (b : List Char) :
    ∀ a : List Char, ¬ (pat <:+: (a ++ pat).dropLast) →
    replaceFirstList pat (a ++ pat ++ b) = a ++ b := by
  intro a
  induction a with
  | nil =>
    intro _
    simp only [List.nil_append]
    exact replaceFirstList_append pat b hne
  | cons c a' ih =>
    intro hni
    have hd : ((c :: a') ++ pat).dropLast = c :: (a' ++ pat).dropLast := by
      rw [List.cons_append, List.dropLast_cons_of_ne_nil]
      exact List.append_ne_nil_of_right_ne_nil a' hne
    have hnp : ¬ (pat.isPrefixOf (c :: (a' ++ (pat ++ b))) = true) := by
      intro hp
      apply hni
      rw [hd]
      have hpre : pat <+: (c :: a') ++ (pat ++ b) := by
        rw [List.cons_append]
        exact List.isPrefixOf_iff_prefix.mp hp
      have hdl := prefix_dropLast_of_prefix_append hpre
      rw [hd] at hdl
      exact hdl.isInfix
    have hni' : ¬ (pat <:+: (a' ++ pat).dropLast) := by
      intro hin
      apply hni
      rw [hd]
      exact List.infix_cons hin
    have heq : (c :: a') ++ pat ++ b = c :: (a' ++ (pat ++ b)) := by
      rw [List.append_assoc, List.cons_append]
    rw [heq]
    simp only [replaceFirstList]
    rw [if_neg hnp, ← List.append_assoc, ih hni', List.cons_append]

/-- `pyReplaceFirst` on a string containing a leftmost occurrence of the
pattern removes exactly that occurrence. -/
lemma pyReplaceFirst_leftmost {p0 : String} {a b : List Char}
    (hdecomp : p0.toList = a ++ "Benchmark".toList ++ b)
    (hleft : ¬ ("Benchmark".toList <:+: (a ++ "Benchmark".toList).dropLast)) :
    pyReplaceFirst p0 "Benchmark" = String.mk (a ++ b) := by
  rw [pyReplaceFirst, hdecomp,
      replaceFirstList_leftmost (by decide) b a hleft]

/-- Evaluation of `parse_json_benchmark` on a decoded object whose `Name`
is a string splitting into at least two segments. -/
lemma parse_json_ok {kvs : List (String × PyVal)} {name p0 p1 : String}
    {rest : List String}
    (hname : lookupLast kvs "Name" = some (PyVal.str name))
    (hsplit : pySplit name '/' = p0 :: p1 :: rest) :
    parse_json_benchmark (.ok (PyData.dict kvs)) =
      .ok (some
        { name := name
          operation := pyReplaceFirst p0 "Benchmark" ++ variantSuffix rest
          hive_size := (match rest with | h :: _ => h | [] => "")
          impl := p1
          iterations := dget kvs "N" (PyVal.int 0)
          ns_per_op := dget kvs "T" (PyVal.float 0)
          bytes_per_op := dget kvs "B" (PyVal.int 0)
          allocs_per_op := dget kvs "A" (PyVal.int 0) }) := by
  have hdget : dget kvs "Name" (PyVal.str "") = PyVal.str name := by
    rw [dget, hname]
    rfl
  simp only [parse_json_benchmark, hdget, hsplit, ← display_eq]
  cases rest <;> rfl

/-- `populate` with no selected records is the freshly initialized
record. -/
lemma populate_none_none (op hs : String) :
    populate op hs Option.none Option.none = initComparison op hs := rfl

/-- Aggregating a single record whose implementation tag is neither
`gohivex` nor `hivex` yields exactly the zero-valued comparison. -/
lemma single_unknown_impl (r : BenchmarkResult) (ft : String)
    (hg : (r.impl == "gohivex") = false) (hh : (r.impl == "hivex") = false)
    (hpass : passesFilter ft r = true) :
    generate_comparisons [r] ft =
      .ok [initComparison r.operation r.hive_size] := by
  have hsel : selectImpls [r] = (Option.none, Option.none) := by
    simp only [selectImpls, List.foldl_cons, List.foldl_nil, hg, hh]
    rfl
  have hmk : mkComparison r.operation r.hive_size [r] =
      .ok (initComparison r.operation r.hive_size) := by
    simp only [mkComparison, hsel]
    rfl
  have hbuild : buildGroups [r] ft = [((r.operation, r.hive_size), [r])] := by
    simp [buildGroups, hpass, addToGroups]
  rw [generate_comparisons, hbuild]
  simp only [buildComparisons, hmk]
  rfl

/-!
Claim theorems.
-/

/-- C1: the claim states the line parser never raises for malformed input,
including structurally valid JSON with a non-string `Name`.  The code
violates this: on the valid JSON line with `Name` bound to the integer
`123`, `data.get('Name','')` returns an int and `name.split('/')` raises
`AttributeError`, which the `except (json.JSONDecodeError, KeyError)`
clause does not catch, so the error propagates out of the parser. -/
theorem parse_json_nonstring_name_uncaught :
    parse_json_benchmark (.ok (PyData.dict [("Name", PyVal.int 123)])) =
      .error PyErr.attributeError := by
  rfl

/-- C2 (counterexample): for `Name = "FooBenchmark/hivex"`, segment 0 is
`FooBenchmark`, which does not start with `Benchmark`, yet parsing
succeeds with operation `Foo`: `replace('Benchmark', '', 1)` removed the
occurrence in the middle, so segment 0 is neither left unchanged nor
stripped only at the front as the claim states. -/
theorem parse_json_strip_not_prefix_counterexample :
    (List.isPrefixOf "Benchmark".toList "FooBenchmark".toList = false) ∧
    parse_json_benchmark
        (.ok (PyData.dict [("Name", PyVal.str "FooBenchmark/hivex")])) =
      .ok (some
        { name := "FooBenchmark/hivex", operation := "Foo", hive_size := ""
          impl := "hivex", iterations := PyVal.int 0
          ns_per_op := PyVal.float 0, bytes_per_op := PyVal.int 0
          allocs_per_op := PyVal.int 0 }) ∧
    ("Foo" : String) ≠ "FooBenchmark" := by
  refine ⟨rfl, rfl, ?_⟩
  decide

/-- C2 (amended): for every successfully parsed structured-encoding line,
the operation name equals segment 0 of `Name` with the *first occurrence*
of the literal `Benchmark` removed (followed by the variant suffix when a
fourth segment is present): a segment 0 that does not contain `Benchmark`
at all is left unchanged; splitting segment 0 as `a ++ "Benchmark" ++ b`
at an occurrence with no occurrence starting further left (none inside
`(a ++ "Benchmark").dropLast`) — in particular an occurrence in the
middle — the parsed operation is `a ++ b`; and a segment 0 that starts
with `Benchmark` has exactly that prefix stripped. -/
theorem parse_json_strip_first_occurrence
    (kvs : List (String × PyVal)) (name p0 p1 : String) (rest : List String)
    (r : BenchmarkResult)
    (hname : lookupLast kvs "Name" = some (PyVal.str name))
    (hsplit : pySplit name '/' = p0 :: p1 :: rest)
    (hr : parse_json_benchmark (.ok (PyData.dict kvs)) = .ok (some r)) :
    (¬ ("Benchmark".toList <:+: p0.toList) →
      r.operation = p0 ++ variantSuffix rest) ∧
    (∀ a b : List Char, p0.toList = a ++ "Benchmark".toList ++ b →
      ¬ ("Benchmark".toList <:+: (a ++ "Benchmark".toList).dropLast) →
      r.operation = String.mk (a ++ b) ++ variantSuffix rest) ∧
    (∀ t : String, p0 = "Benchmark" ++ t →
      r.operation = t ++ variantSuffix rest) := by
  rw [parse_json_ok hname hsplit] at hr
  obtain rfl := (Option.some.inj (Except.ok.inj hr)).symm
  refine ⟨?_, ?_, ?_⟩
  · intro hni
    show pyReplaceFirst p0 "Benchmark" ++ variantSuffix rest =
      p0 ++ variantSuffix rest
    rw [pyReplaceFirst_no_occur hni]
  · intro a b hdecomp hleft
    show pyReplaceFirst p0 "Benchmark" ++ variantSuffix rest =
      String.mk (a ++ b) ++ variantSuffix rest
    rw [pyReplaceFirst_leftmost hdecomp hleft]
  · intro t ht
    show pyReplaceFirst p0 "Benchmark" ++ variantSuffix rest =
      t ++ variantSuffix rest
    rw [ht, pyReplaceFirst_append]

/-- Witness for C2 (amended) at the line
`{"Name": "FooBenchmarkBar/hivex/small"}`: the `Benchmark` occurrence in
the middle of segment 0 is removed, giving operation `FooBar`. -/
theorem parse_json_strip_first_occurrence_witness :
    parse_json_benchmark
        (.ok (PyData.dict
          [("Name", PyVal.str "FooBenchmarkBar/hivex/small")])) =
      .ok (some c2mid) ∧
    c2mid.operation =
      String.mk ("Foo".toList ++ "Bar".toList) ++ variantSuffix ["small"] :=
  ⟨rfl,
    (parse_json_strip_first_occurrence
      [("Name", PyVal.str "FooBenchmarkBar/hivex/small")]
      "FooBenchmarkBar/hivex/small" "FooBenchmarkBar" "hivex" ["small"]
      c2mid rfl rfl rfl).2.1 "Foo".toList "Bar".toList rfl (by decide)⟩

/-- C8: the textual line
`BenchmarkNodeGetChild/hivex/medium-8  900000  150.2 ns/op  64 B/op  3 allocs/op`
parses to exactly one record with operation `NodeGetChild`, implementation
`hivex`, size category `medium`, 150.2 ns/op, 64 B/op and 3 allocs/op. -/
theorem parse_text_benchmark_scenario :
    parse_text_benchmark
      "BenchmarkNodeGetChild/hivex/medium-8  900000  150.2 ns/op  64 B/op  3 allocs/op" =
    .ok (some
      { name := "BenchmarkNodeGetChild/hivex/medium/"
        operation := "NodeGetChild"
        hive_size := "medium"
        impl := "hivex"
        iterations := PyVal.int 900000
        ns_per_op := PyVal.float (751/5)
        bytes_per_op := PyVal.int 64
        allocs_per_op := PyVal.int 3 }) := by
  have h1 : parse_text_benchmark
      "BenchmarkNodeGetChild/hivex/medium-8  900000  150.2 ns/op  64 B/op  3 allocs/op" =
    .ok (some
      { name := "BenchmarkNodeGetChild/hivex/medium/"
        operation := "NodeGetChild"
        hive_size := "medium"
        impl := "hivex"
        iterations := PyVal.int 900000
        ns_per_op := PyVal.float ((150 : ℚ) + (2 : ℚ) / (10 ^ (1 : Nat)))
        bytes_per_op := PyVal.int 64
        allocs_per_op := PyVal.int 3 }) := rfl
  have h2 : ((150 : ℚ) + (2 : ℚ) / (10 ^ (1 : Nat))) = 751/5 := by norm_num
  rw [h1, h2]

/-- All fields of a successfully built comparison other than `speedup`
agree with the populated record. -/
lemma mkComparison_fields {op hs : String} {group : List BenchmarkResult}
    {c : ComparisonResult} (h : mkComparison op hs group = .ok c) :
    c.gohivex_only =
        (populate op hs (selectImpls group).1 (selectImpls group).2).gohivex_only ∧
    c.gohivex_ns =
        (populate op hs (selectImpls group).1 (selectImpls group).2).gohivex_ns ∧
    c.gohivex_mem =
        (populate op hs (selectImpls group).1 (selectImpls group).2).gohivex_mem ∧
    c.gohivex_allocs =
        (populate op hs (selectImpls group).1 (selectImpls group).2).gohivex_allocs ∧
    c.hivex_ns =
        (populate op hs (selectImpls group).1 (selectImpls group).2).hivex_ns ∧
    c.hivex_mem =
        (populate op hs (selectImpls group).1 (selectImpls group).2).hivex_mem ∧
    c.hivex_allocs =
        (populate op hs (selectImpls group).1 (selectImpls group).2).hivex_allocs := by
  rcases mkComparison_ok h with ⟨_, _, _, _, _, _, rfl⟩ | ⟨rfl, _⟩ <;>
    exact ⟨rfl, rfl, rfl, rfl, rfl, rfl, rfl⟩

/-- C3: for every comparison produced by the aggregator, when both stored
time values are strictly positive numbers the speedup is exactly the
hivex time divided by the gohivex time, and otherwise (a non-positive,
non-numeric or absent time) the speedup is exactly the zero float. -/
theorem generate_comparisons_speedup
    (results : List BenchmarkResult) (ft : String)
    (comps : List ComparisonResult)
    (h : generate_comparisons results ft = .ok comps)
    (c : ComparisonResult) (hc : c ∈ comps) :
    (∀ qg qh : ℚ, pyToNum? c.gohivex_ns = some qg →
        pyToNum? c.hivex_ns = some qh → 0 < qg → 0 < qh →
        c.speedup = PyVal.float (qh / qg)) ∧
    (¬((∃ qg : ℚ, pyToNum? c.gohivex_ns = some qg ∧ 0 < qg) ∧
        (∃ qh : ℚ, pyToNum? c.hivex_ns = some qh ∧ 0 < qh)) →
      c.speedup = PyVal.float 0) := by
  rw [generate_comparisons] at h
  cases hb : buildComparisons (buildGroups results ft) with
  | error e => rw [hb] at h; cases h
  | ok cs =>
    rw [hb] at h
    obtain rfl := (Except.ok.inj h).symm
    obtain ⟨g, hg, hmk⟩ := mem_buildComparisons hb (mem_sortComparisons.mp hc)
    rcases mkComparison_ok hmk with
      ⟨qg, qh, hqg, hqh, hpg, hph, rfl⟩ | ⟨rfl, hneg⟩
    · constructor
      · intro qg' qh' h1 h2 _ _
        have h1' : pyToNum?
            (populate g.1.1 g.1.2 (selectImpls g.2).1 (selectImpls g.2).2).gohivex_ns =
            some qg' := h1
        have h2' : pyToNum?
            (populate g.1.1 g.1.2 (selectImpls g.2).1 (selectImpls g.2).2).hivex_ns =
            some qh' := h2
        rw [hqg] at h1'
        rw [hqh] at h2'
        obtain rfl := Option.some.inj h1'
        obtain rfl := Option.some.inj h2'
        rfl
      · intro hne
        exact absurd ⟨⟨qg, hqg, hpg⟩, ⟨qh, hqh, hph⟩⟩ hne
    · constructor
      · intro qg' qh' h1 h2 hp1 hp2
        exact absurd ⟨⟨qg', h1, hp1⟩, ⟨qh', h2, hp2⟩⟩ hneg
      · intro _
        exact populate_speedup _ _ _ _

/-- Witness for C3: aggregating a gohivex time of 2 and a hivex time of 3
produces a single comparison with speedup 3/2. -/
theorem generate_comparisons_speedup_witness :
    generate_comparisons [wOpG, wOpH] "standard" = .ok [cmpOpBoth] ∧
    cmpOpBoth.speedup = PyVal.float ((3 : ℚ) / 2) :=
  ⟨rfl,
    (generate_comparisons_speedup [wOpG, wOpH] "standard" [cmpOpBoth] rfl
      cmpOpBoth (List.mem_singleton.mpr rfl)).1 2 3 rfl rfl
      (by norm_num) (by norm_num)⟩

/-- C4: for every comparison built from a group, `gohivex_only` is true
iff the group contains a `gohivex` record and no `hivex` record; a group
without `gohivex` data yields `gohivex_only = false` with every
gohivex-side value left at its zero initial value. -/
theorem mkComparison_gohivex_only_iff
    (op hs : String) (group : List BenchmarkResult) (c : ComparisonResult)
    (h : mkComparison op hs group = .ok c) :
    (c.gohivex_only = true ↔
      ((∃ r ∈ group, r.impl = "gohivex") ∧ ¬ ∃ r ∈ group, r.impl = "hivex")) ∧
    ((¬ ∃ r ∈ group, r.impl = "gohivex") →
      c.gohivex_only = false ∧ c.gohivex_ns = PyVal.float 0 ∧
        c.gohivex_mem = PyVal.int 0 ∧ c.gohivex_allocs = PyVal.int 0) := by
  obtain ⟨hf0, hf1, hf2, hf3, -, -, -⟩ := mkComparison_fields h
  have hsel1 : (selectImpls group).1 =
      group.reverse.find? (fun r => r.impl == "gohivex") := by
    rw [selectImpls_eq]
  have hsel2 : (selectImpls group).2 =
      group.reverse.find? (fun r => r.impl == "hivex") := by
    rw [selectImpls_eq]
  have hex : (group.reverse.find? (fun r => r.impl == "gohivex")).isSome = true ↔
      ∃ r ∈ group, r.impl = "gohivex" := by
    rw [List.find?_isSome]
    constructor
    · rintro ⟨r, hr, hp⟩
      exact ⟨r, List.mem_reverse.mp hr, beq_iff_eq.mp hp⟩
    · rintro ⟨r, hr, hp⟩
      exact ⟨r, List.mem_reverse.mpr hr, beq_iff_eq.mpr hp⟩
  have hnone : (group.reverse.find? (fun r => r.impl == "hivex")) = Option.none ↔
      ¬ ∃ r ∈ group, r.impl = "hivex" := by
    rw [List.find?_eq_none]
    constructor
    · rintro hall ⟨r, hr, hp⟩
      exact hall r (List.mem_reverse.mpr hr) (by simp [hp])
    · intro hne r hr hp
      exact hne ⟨r, List.mem_reverse.mp hr, beq_iff_eq.mp hp⟩
  constructor
  · rw [hf0, populate_gohivex_only, hsel1, hsel2, Bool.and_eq_true]
    constructor
    · rintro ⟨h1, h2⟩
      exact ⟨hex.mp h1, hnone.mp (Option.isNone_iff_eq_none.mp h2)⟩
    · rintro ⟨h1, h2⟩
      exact ⟨hex.mpr h1, Option.isNone_iff_eq_none.mpr (hnone.mpr h2)⟩
  · intro hng
    have h1 : group.reverse.find? (fun r => r.impl == "gohivex") = Option.none := by
      rw [List.find?_eq_none]
      intro r hr hp
      exact hng ⟨r, List.mem_reverse.mp hr, beq_iff_eq.mp hp⟩
    refine ⟨?_, ?_, ?_, ?_⟩
    · rw [hf0, populate_gohivex_only, hsel1, h1]
      rfl
    · rw [hf1, populate_gohivex_ns, hsel1, h1]
    · rw [hf2, populate_gohivex_mem, hsel1, h1]
    · rw [hf3, populate_gohivex_allocs, hsel1, h1]

/-- Witness for C4: a group with only a gohivex record yields
`gohivex_only = true`. -/
theorem mkComparison_gohivex_only_iff_witness :
    mkComparison "Op" "small" [wOpG] = .ok cmpOpOnly ∧
    cmpOpOnly.gohivex_only = true :=
  ⟨rfl,
    (mkComparison_gohivex_only_iff "Op" "small" [wOpG] cmpOpOnly rfl).1.mpr
      ⟨⟨wOpG, List.mem_singleton.mpr rfl, rfl⟩, by decide⟩⟩

/-- C7: when a group holds several records for the same implementation
tag, the comparison copies the values of the *last* record of the group
carrying that tag (the last match of the reversed group), and the
duplicate raises no error. -/
theorem mkComparison_last_record_wins
    (op hs : String) (group : List BenchmarkResult) (c : ComparisonResult)
    (h : mkComparison op hs group = .ok c) :
    (∀ r, group.reverse.find? (fun x => x.impl == "gohivex") = some r →
        c.gohivex_ns = r.ns_per_op ∧ c.gohivex_mem = r.bytes_per_op ∧
          c.gohivex_allocs = r.allocs_per_op) ∧
    (∀ r, group.reverse.find? (fun x => x.impl == "hivex") = some r →
        c.hivex_ns = r.ns_per_op ∧ c.hivex_mem = r.bytes_per_op ∧
          c.hivex_allocs = r.allocs_per_op) := by
  obtain ⟨-, hf1, hf2, hf3, hf4, hf5, hf6⟩ := mkComparison_fields h
  have hsel1 : (selectImpls group).1 =
      group.reverse.find? (fun r => r.impl == "gohivex") := by
    rw [selectImpls_eq]
  have hsel2 : (selectImpls group).2 =
      group.reverse.find? (fun r => r.impl == "hivex") := by
    rw [selectImpls_eq]
  constructor
  · intro r hr
    refine ⟨?_, ?_, ?_⟩
    · rw [hf1, populate_gohivex_ns, hsel1, hr]
    · rw [hf2, populate_gohivex_mem, hsel1, hr]
    · rw [hf3, populate_gohivex_allocs, hsel1, hr]
  · intro r hr
    refine ⟨?_, ?_, ?_⟩
    · rw [hf4, populate_hivex_ns, hsel2, hr]
    · rw [hf5, populate_hivex_mem, hsel2, hr]
    · rw [hf6, populate_hivex_allocs, hsel2, hr]

/-- Witness for C7: with two gohivex records in the group, the values of
the second (last) one are used and no error is raised. -/
theorem mkComparison_last_record_wins_witness :
    mkComparison "Op" "small" [wOpG, wOpG2] = .ok cmpOpLast ∧
    cmpOpLast.gohivex_ns = wOpG2.ns_per_op ∧
    cmpOpLast.gohivex_mem = wOpG2.bytes_per_op ∧
    cmpOpLast.gohivex_allocs = wOpG2.allocs_per_op :=
  ⟨rfl,
    (mkComparison_last_record_wins "Op" "small" [wOpG, wOpG2] cmpOpLast
      rfl).1 wOpG2 rfl⟩

/-- C5: category partitioning is exhaustive and exclusive: an input record
lands in a group of the `standard` aggregator run iff its base operation
name (the part before any `/variant` suffix) is *not* in
`MUTATION_OPERATIONS`, and in a group of the `mutation` run iff it *is* —
so every record lands in exactly one of the two runs, determined solely by
that membership. -/
theorem category_partition_exclusive
    (results : List BenchmarkResult) (r : BenchmarkResult)
    (hr : r ∈ results) :
    ((∃ g ∈ buildGroups results "standard", r ∈ g.2) ↔
      MUTATION_OPERATIONS.contains ((pySplit r.operation '/').headD "") = false) ∧
    ((∃ g ∈ buildGroups results "mutation", r ∈ g.2) ↔
      MUTATION_OPERATIONS.contains ((pySplit r.operation '/').headD "") = true) := by
  have hnot : ∀ b : Bool, ((!b) = true ↔ b = false) := by decide
  constructor
  · rw [mem_buildGroups, passesFilter_standard]
    constructor
    · rintro ⟨-, hb⟩
      exact (hnot _).mp hb
    · intro hb
      exact ⟨hr, (hnot _).mpr hb⟩
  · rw [mem_buildGroups, passesFilter_mutation]
    constructor
    · rintro ⟨-, hb⟩
      exact hb
    · intro hb
      exact ⟨hr, hb⟩

/-- Witness for C5: the record for operation `Op` lands in the standard
run and not in the mutation run. -/
theorem category_partition_exclusive_witness :
    (∃ g ∈ buildGroups [wOpG] "standard", wOpG ∈ g.2) ∧
      ¬(∃ g ∈ buildGroups [wOpG] "mutation", wOpG ∈ g.2) := by
  have h := category_partition_exclusive [wOpG] wOpG (List.mem_singleton.mpr rfl)
  exact ⟨h.1.mpr rfl, fun hx => absurd (h.2.mp hx) (by decide)⟩

/-- C6: every list of comparisons returned by the aggregator is sorted in
ascending lexicographic order by operation name, with ties broken by
ascending lexicographic size category. -/
theorem generate_comparisons_sorted
    (results : List BenchmarkResult) (ft : String)
    (comps : List ComparisonResult)
    (h : generate_comparisons results ft = .ok comps) :
    comps.Pairwise (fun a b =>
      lexLtB a.operation.toList b.operation.toList = true ∨
        (a.operation = b.operation ∧
          (lexLtB a.hive_size.toList b.hive_size.toList = true ∨
            a.hive_size = b.hive_size))) := by
  rw [generate_comparisons] at h
  cases hb : buildComparisons (buildGroups results ft) with
  | error e => rw [hb] at h; cases h
  | ok cs =>
    rw [hb] at h
    obtain rfl := (Except.ok.inj h).symm
    exact (pairwise_sortComparisons cs).imp (fun hab => keyLE_iff.mp hab)

/-- Witness for C6: the two groups `Op` and `Aaa`, fed in unsorted order,
come out sorted with `Aaa` first. -/
theorem generate_comparisons_sorted_witness :
    generate_comparisons [wOpG, wAaaG] "standard" =
        .ok [cmpAaaOnly, cmpOpOnly] ∧
    List.Pairwise (fun a b : ComparisonResult =>
      lexLtB a.operation.toList b.operation.toList = true ∨
        (a.operation = b.operation ∧
          (lexLtB a.hive_size.toList b.hive_size.toList = true ∨
            a.hive_size = b.hive_size))) [cmpAaaOnly, cmpOpOnly] :=
  ⟨rfl,
    generate_comparisons_sorted [wOpG, wAaaG] "standard"
      [cmpAaaOnly, cmpOpOnly] rfl⟩

/-- C9: a structured-encoding line whose implementation tag (segment 1)
is neither `gohivex` nor `hivex` is accepted by the parser; when it
passes the category filter, aggregating it produces its own comparison in
the output, with every per-implementation value still zero, speedup the
zero float, and `gohivex_only` false (exactly the freshly initialized
record for its key). -/
theorem unknown_impl_zero_comparison
    (kvs : List (String × PyVal)) (name p0 p1 : String) (rest : List String)
    (ft : String)
    (hname : lookupLast kvs "Name" = some (PyVal.str name))
    (hsplit : pySplit name '/' = p0 :: p1 :: rest)
    (hg : p1 ≠ "gohivex") (hh : p1 ≠ "hivex") :
    ∃ r : BenchmarkResult,
      parse_json_benchmark (.ok (PyData.dict kvs)) = .ok (some r) ∧
      r.impl = p1 ∧
      (passesFilter ft r = true →
        generate_comparisons [r] ft =
          .ok [initComparison r.operation r.hive_size]) := by
  refine ⟨_, parse_json_ok hname hsplit, rfl, ?_⟩
  intro hpass
  exact single_unknown_impl _ ft (beq_eq_false_iff_ne.mpr hg)
    (beq_eq_false_iff_ne.mpr hh) hpass

/-- Witness for C9 at the line
`{"Name": "BenchmarkFoo/rust/small", "T": 5.0}`. -/
theorem unknown_impl_zero_comparison_witness :
    parse_json_benchmark (.ok (PyData.dict
        [("Name", PyVal.str "BenchmarkFoo/rust/small"),
         ("T", PyVal.float 5)])) = .ok (some w9rec) ∧
    w9rec.impl = "rust" ∧
    generate_comparisons [w9rec] "standard" =
      .ok [initComparison "Foo" "small"] := by
  obtain ⟨r, hp, hi, hgen⟩ := unknown_impl_zero_comparison
    [("Name", PyVal.str "BenchmarkFoo/rust/small"), ("T", PyVal.float 5)]
    "BenchmarkFoo/rust/small" "BenchmarkFoo" "rust" ["small"] "standard"
    rfl rfl (by decide) (by decide)
  have h0 : parse_json_benchmark (.ok (PyData.dict
      [("Name", PyVal.str "BenchmarkFoo/rust/small"),
       ("T", PyVal.float 5)])) = .ok (some w9rec) := rfl
  obtain rfl := Option.some.inj (Except.ok.inj (hp.symm.trans h0))
  exact ⟨h0, hi, hgen rfl⟩

/-- C10: a structured-encoding line that is valid JSON with a valid
`Name` but without the keys `N`, `T`, `B`, `A` is not skipped: the parser
produces a record with the missing fields defaulted to the int 0, the
float 0.0, the int 0 and the int 0 respectively. -/
theorem parse_json_missing_keys_default
    (kvs : List (String × PyVal)) (name p0 p1 : String) (rest : List String)
    (hname : lookupLast kvs "Name" = some (PyVal.str name))
    (hsplit : pySplit name '/' = p0 :: p1 :: rest)
    (hN : lookupLast kvs "N" = Option.none)
    (hT : lookupLast kvs "T" = Option.none)
    (hB : lookupLast kvs "B" = Option.none)
    (hA : lookupLast kvs "A" = Option.none) :
    ∃ r : BenchmarkResult,
      parse_json_benchmark (.ok (PyData.dict kvs)) = .ok (some r) ∧
      r.iterations = PyVal.int 0 ∧ r.ns_per_op = PyVal.float 0 ∧
      r.bytes_per_op = PyVal.int 0 ∧ r.allocs_per_op = PyVal.int 0 := by
  refine ⟨_, parse_json_ok hname hsplit, ?_, ?_, ?_, ?_⟩
  · show dget kvs "N" (PyVal.int 0) = PyVal.int 0
    rw [dget, hN]
    rfl
  · show dget kvs "T" (PyVal.float 0) = PyVal.float 0
    rw [dget, hT]
    rfl
  · show dget kvs "B" (PyVal.int 0) = PyVal.int 0
    rw [dget, hB]
    rfl
  · show dget kvs "A" (PyVal.int 0) = PyVal.int 0
    rw [dget, hA]
    rfl

/-- Witness for C10 at the line `{"Name": "BenchmarkFoo/gohivex/small"}`. -/
theorem parse_json_missing_keys_default_witness :
    parse_json_benchmark (.ok (PyData.dict
        [("Name", PyVal.str "BenchmarkFoo/gohivex/small")])) =
      .ok (some w10rec) ∧
    w10rec.iterations = PyVal.int 0 ∧ w10rec.ns_per_op = PyVal.float 0 ∧
    w10rec.bytes_per_op = PyVal.int 0 ∧ w10rec.allocs_per_op = PyVal.int 0 := by
  obtain ⟨r, hp, h1, h2, h3, h4⟩ := parse_json_missing_keys_default
    [("Name", PyVal.str "BenchmarkFoo/gohivex/small")]
    "BenchmarkFoo/gohivex/small" "BenchmarkFoo" "gohivex" ["small"]
    rfl rfl rfl rfl rfl rfl
  have h0 : parse_json_benchmark (.ok (PyData.dict
      [("Name", PyVal.str "BenchmarkFoo/gohivex/small")])) =
    .ok (some w10rec) := rfl
  obtain rfl := Option.some.inj (Except.ok.inj (hp.symm.trans h0))
  exact ⟨h0, h1, h2, h3, h4⟩
